import Mathlib

/-!
# Verification of the qmk_firmware HID fetcher wire protocol

Shallow embedding of the host-side encoders (`src/hid_fetcher/src/*.ts`),
the firmware-side decoder (`keyboards/splitkb/aurora/corne/keymaps/millotp/keymap.c`)
and the liveness handshake, together with proofs about the packet layouts,
the 5-bit quantized-history codec, the chunked transit-message codec and
the heartbeat/watchdog logic.

Conventions of the embedding:
* A Node.js `Buffer` is a `List Nat` of byte values; `Buffer.alloc n` is
  `List.replicate n 0` (zero-filled).
* `buf.writeUInt8(v, off)` is modelled by `List.set off v`.  Node validates
  `0 ≤ v ≤ 255` and throws a `RangeError` otherwise; every theorem below that
  depends on a `writeUInt8` call either writes a compile-time constant in
  range or carries an explicit in-range hypothesis, so the total model agrees
  with Node on the domain used.
* JavaScript numbers are modelled as `ℚ` (exact arithmetic); `Math.round`
  is `⌊x + 1/2⌋` (JS rounds halves toward +∞), `Math.floor` is `⌊x⌋`.
  All concrete inputs used in counterexamples and witnesses are exactly
  representable in binary floating point, so the ℚ model agrees with the
  float semantics there.
* Strings are lists of character codes; the fetcher strips diacritics before
  serialization, so the transit/weather strings written to packets are ASCII
  and JS `string.length`/`slice` agree with byte counts.
-/

/-! ## JavaScript `Buffer` primitives (Node.js semantics) -/

/-- A Node.js `Buffer`: a fixed-length sequence of bytes. -/
abbrev Buf := List Nat

/-- `Buffer.alloc n`: `n` zero bytes. -/
def Buf.alloc (n : Nat) : Buf := List.replicate n 0

/-- Byte read `buf[i]` (reads out of range give `undefined`; all reads in this
development are in range, `0` is the padding default). -/
def Buf.getB (buf : Buf) (i : Nat) : Nat := List.getD buf i 0

/-- Length of the buffer. -/
def Buf.len (buf : Buf) : Nat := List.length buf

/-- `buf.writeUInt8(v, off)` for an in-range `v` (Node throws otherwise;
see the module conventions). -/
def Buf.wUInt8 (buf : Buf) (v : Nat) (off : Nat) : Buf := List.set buf off v

/-- `buf.writeUInt16BE(v, off)`: big-endian, high byte first. -/
def Buf.wUInt16BE (buf : Buf) (v : Nat) (off : Nat) : Buf :=
  (buf.wUInt8 (v / 256 % 256) off).wUInt8 (v % 256) (off + 1)

/-- `buf.writeInt16BE(v, off)`: two's-complement big-endian.  Node validates
`-32768 ≤ v ≤ 32767`; the stored bytes are those of `v mod 2^16`. -/
def Buf.wInt16BE (buf : Buf) (v : Int) (off : Nat) : Buf :=
  Buf.wUInt16BE buf (v.emod 65536).toNat off

/-- Byte-by-byte copy of a string's character codes into the buffer. -/
def Buf.wBytes : Buf → List Nat → Nat → Buf
  | buf, [], _ => buf
  | buf, c :: cs, off => Buf.wBytes (buf.wUInt8 c off) cs (off + 1)

/-- `buf.write(string, offset, maxLen, encoding)`: copies at most `maxLen`
character codes of `s` starting at `offset` (Node truncates at the cap and at
the end of the buffer; `List.set` out of range is already a no-op). -/
def Buf.wStr (buf : Buf) (s : List Nat) (off : Nat) (maxLen : Nat) : Buf :=
  buf.wBytes (s.take maxLen) off

/-- `payload[j] |= 1 << k` — set bit `k` of byte `j` in place. -/
def Buf.setBit (buf : Buf) (j k : Nat) : Buf :=
  List.set buf j (buf.getB j ||| (1 <<< k))

/-- The firmware's bit test `data[bit_pos >> 3] & (1 << (bit_pos & 7))`
viewed as a `Bool`: bit `p` of the buffer, bytes little-endian-bit-indexed. -/
def Buf.testB (buf : Buf) (p : Nat) : Bool :=
  (buf.getB (p >>> 3)) &&& (1 <<< (p &&& 7)) != 0

/-- A heartbeat packet as the firmware emits it (`process_record_user`):
32 zero bytes with `buf[1] = 1`. -/
def heartbeatPacket : Buf := (Buf.alloc 32).wUInt8 1 1

/-! Sanity examples for the primitives. -/

example : (Buf.alloc 4).wUInt8 7 1 = [0, 7, 0, 0] := by decide
example : ((Buf.alloc 4).wUInt16BE 13250 1) = [0, 51, 194, 0] := by decide
example : ((Buf.alloc 4).wInt16BE (-5) 1) = [0, 255, 251, 0] := by decide
example : ((Buf.alloc 5).wStr [65, 66, 67] 1 2) = [0, 65, 66, 0, 0] := by decide
example : (Buf.alloc 2).setBit 1 3 = [0, 8] := by decide
example : ((Buf.alloc 2).setBit 1 3).testB 11 = true := by decide
example : ((Buf.alloc 2).setBit 1 3).testB 10 = false := by decide

/-! ## `fetcher.ts`: the shared `DATA_TYPE` tag table

The object literal in `src/hid_fetcher/src/fetcher.ts` defines exactly six
keys.  Property accesses on keys it does not define evaluate to `undefined`
in JavaScript; those are modelled as `Option`-valued constants. -/

namespace DATA_TYPE

def STOCK_1 : Nat := 1

def STOCK_2 : Nat := 2

def METRO : Nat := 3

def METRO_MESSAGE : Nat := 4

def METRO_STATION : Nat := 5

def WEATHER : Nat := 6

/-- `metro.ts` references `DATA_TYPE.METRO_MESSAGE_1`, a key that the
`DATA_TYPE` object in `fetcher.ts` does not define; the property access
yields `undefined`. -/
def METRO_MESSAGE_1 : Option Nat := none

/-- `metro.ts` references `DATA_TYPE.METRO_MESSAGE_2`, likewise absent from
`fetcher.ts`; the access yields `undefined`. -/
def METRO_MESSAGE_2 : Option Nat := none

end DATA_TYPE

/-- `buf.writeUint8(v, off)` where `v` is a JS value that may be `undefined`,
with Node's control flow made explicit (lib/internal/buffer.js, `writeU_Int8`):
the argument is coerced with unary plus, then rejected when `value > 255` or
`value < 0`.  `+undefined` is `NaN`, both comparisons are false for `NaN`, so
no `RangeError` is raised, and storing `NaN` into the backing `Uint8Array`
converts it to byte `0`. -/
def Buf.wUInt8Checked (buf : Buf) (v : Option Nat) (off : Nat) : Except String Buf :=
  match v with
  | some n => if 255 < n then Except.error "ERR_OUT_OF_RANGE" else Except.ok (buf.wUInt8 n off)
  | none => Except.ok (buf.wUInt8 0 off)

/-! ## `stock.ts`: JS numeric helpers and the quantized-series encoder -/

/-- JS `Math.round`: rounds halves toward +∞. -/
def jsRound (x : ℚ) : Int := ⌊x + 1/2⌋

/-- `const range = max - min || 1` — JS `||` replaces a zero (falsy) range
by `1`. -/
def rangeOf (mn mx : ℚ) : ℚ := if mx - mn = 0 then 1 else mx - mn

/-- `Math.floor((price - min) / range * 31)` — the 5-bit quantization of one
sample (stock.ts line 227). -/
def normalizeSample (s mn mx : ℚ) : Int := ⌊(s - mn) / rangeOf mn mx * 31⌋

/-- `Math.min(...list)`.  JS yields `+Infinity` on an empty spread; the value
is then only mentioned inside the per-sample loop, which is empty, so the
placeholder `0` is never observable. -/
def listMin : List ℚ → ℚ
  | [] => 0
  | x :: xs => xs.foldl min x

/-- `Math.max(...list)` (placeholder `0` on `[]`, see `listMin`). -/
def listMax : List ℚ → ℚ
  | [] => 0
  | x :: xs => xs.foldl max x

/-- Inner bit loop of the serializer: write the `n` low bits of `v` at bit
positions `bitPos, bitPos+1, …` of the region starting at byte `base`
(`payload[(bitPos >> 3) + base] |= 1 << (bitPos & 7)` for each set bit,
then `normalized >>= 1`). -/
def packBitsLoop (buf : Buf) (base bitPos v : Nat) : Nat → Buf
  | 0 => buf
  | i + 1 =>
    packBitsLoop
      (if v &&& 1 = 1 then buf.setBit (base + (bitPos >>> 3)) (bitPos &&& 7) else buf)
      base (bitPos + 1) (v >>> 1) i

/-- One 5-bit field (`for (let i = 0; i < 5; i++, bitPos++) …`). -/
def packValue (buf : Buf) (base bitPos v : Nat) : Buf := packBitsLoop buf base bitPos v 5

/-- The full packing loop over the already-quantized sample values. -/
def packValues (buf : Buf) (base bitPos : Nat) : List Nat → Buf
  | [] => buf
  | v :: vs => packValues (packValue buf base bitPos v) base (bitPos + 5) vs

/-- `const STOCKS = ['DDOG', 'AAPL']`. -/
inductive StockSymbol
  | DDOG
  | AAPL
deriving DecidableEq

/-- `STOCKS.indexOf(stock.symbol)`. -/
def STOCKS.indexOf : StockSymbol → Nat
  | .DDOG => 0
  | .AAPL => 1

/-- One entry of `StockData.stocks` (the field `open` of the source is called
`marketOpen` here because `open` is a Lean keyword). -/
structure StockRecord where
  symbol : StockSymbol
  marketOpen : Bool
  currentPrice : ℚ
  dayChangePercent : ℚ
  hourlyHistory : List ℚ

namespace StockData

/-- Head packet of `StockData.serialize` (stock.ts lines 213–241): tag, index,
open flag, 3-byte big-endian price (16-bit high part at 4, low byte at 6),
int16 BE day change at 7, history length at 9, packed 5-bit samples from
byte 10.  The price is written through `toNat`: quoted prices are nonnegative
(a negative argument would make Node's `writeUInt16BE` throw). -/
def serializeHead (s : StockRecord) : Buf :=
  let payload := Buf.alloc 32
  let payload := payload.wUInt8 DATA_TYPE.STOCK_1 1
  let payload := payload.wUInt8 (STOCKS.indexOf s.symbol) 2
  let payload := payload.wUInt8 (if s.marketOpen then 1 else 0) 3
  let price := (jsRound (s.currentPrice * 100)).toNat
  let payload := payload.wUInt16BE (price >>> 8) 4
  let payload := payload.wUInt8 (price &&& 255) 6
  let payload := payload.wInt16BE (jsRound (s.dayChangePercent * 100)) 7
  let payload := payload.wUInt8 s.hourlyHistory.length 9
  let mn := listMin s.hourlyHistory
  let mx := listMax s.hourlyHistory
  packValues payload 10 0 ((s.hourlyHistory.take 35).map fun p => (normalizeSample p mn mx).toNat)

/-- Continuation packet (stock.ts lines 243–264): tag STOCK_2, index, then
`hourlyHistory.slice(35, 80)` packed as 5-bit fields from byte 3, quantized
with the same history-wide min/max as the head packet. -/
def serializeCont (s : StockRecord) : Buf :=
  let rest := Buf.alloc 32
  let rest := rest.wUInt8 DATA_TYPE.STOCK_2 1
  let rest := rest.wUInt8 (STOCKS.indexOf s.symbol) 2
  let mn := listMin s.hourlyHistory
  let mx := listMax s.hourlyHistory
  packValues rest 3 0 (((s.hourlyHistory.drop 35).take 45).map fun p => (normalizeSample p mn mx).toNat)

/-- `StockData.serialize`: one head packet per stored stock, plus a
continuation packet when the history exceeds 35 samples. -/
def serialize (stocks : List StockRecord) : List Buf :=
  stocks.flatMap fun s =>
    serializeHead s :: (if 35 < s.hourlyHistory.length then [serializeCont s] else [])

/-- The `catch` in `StockData.refresh` (stock.ts lines 205–212): a failed
upstream fetch only logs, leaving `this.stocks` unchanged; a successful fetch
replaces the per-symbol records wholesale. -/
def refresh (stored : List StockRecord) (upstream : Option (List StockRecord)) :
    List StockRecord :=
  match upstream with
  | some fresh => fresh
  | none => stored

end StockData

/-- One iteration of `refreshAndSend` (main.ts lines 29–37) specialized to the
stock fetcher: refresh (with its internal catch), then serialize and send
every resulting packet.  The returned list is exactly what reaches
`sendToKeyboard` this cycle. -/
def refreshAndSendStock (stored : List StockRecord)
    (upstream : Option (List StockRecord)) : List Buf :=
  StockData.serialize (StockData.refresh stored upstream)

/-! ## `keymap.c`: the firmware-side stock decoder -/

/-- Inner loop of `decode_stock_history`: read bits `bitPos, …, bitPos+n-1`,
least significant first (`value |= 1 << b`). -/
def readBitsLoop (data : Buf) (bitPos : Nat) : Nat → Nat
  | 0 => 0
  | b + 1 => (if data.testB bitPos then 1 else 0) + 2 * readBitsLoop data (bitPos + 1) b

/-- One 5-bit field at bit positions `i*5 … i*5+4`. -/
def read5 (data : Buf) (i : Nat) : Nat := readBitsLoop data (i * 5) 5

/-- `decode_stock_history(data, history_length, out)` (keymap.c lines 128–142):
decodes `min(history_length, 24)` packed 5-bit values from `data`. -/
def decode_stock_history (data : Buf) (len : Nat) : List Nat :=
  (List.range (min len 24)).map (read5 data)

/-- Reading every index of a packed buffer (the claim C7 reading discipline:
5 bits LSB-first at bit positions `i*5 … i*5+4` for every `i < n`). -/
def readValues (data : Buf) (n : Nat) : List Nat :=
  (List.range n).map (read5 data)

/-- C's conversion of a `uint32_t` bit pattern to `int32_t`. -/
def int32OfNat (n : Nat) : Int := if n < 2 ^ 31 then (n : Int) else (n : Int) - 2 ^ 32

/-- C's conversion of a `uint16_t` bit pattern to `int16_t`. -/
def int16OfNat (n : Nat) : Int := if n < 2 ^ 15 then (n : Int) else (n : Int) - 2 ^ 16

/-- The per-symbol firmware state `single_stock_data` as filled in by
`raw_hid_receive`. -/
structure FwStock where
  index : Nat
  openFlag : Bool
  current_price : Nat
  day_change_percentage : Int
  history_length : Nat
  history : List Nat
deriving DecidableEq

/-- `raw_hid_receive`, case `STOCK_DATA_TYPE` (keymap.c lines 181–191).
`data` is the wire packet with the report-id byte stripped, so `data[0]` is
wire byte 1 (the tag).  The firmware reads a 4-byte big-endian price from
`data[3..6]`, a 4-byte big-endian day change from `data[7..10]`, the history
length from `data[11]` and the packed samples from `data + 12`. -/
def decodeStock (data : Buf) : FwStock :=
  { index := data.getB 1
    openFlag := data.getB 2 != 0
    current_price :=
      data.getB 3 <<< 24 ||| data.getB 4 <<< 16 ||| data.getB 5 <<< 8 ||| data.getB 6
    day_change_percentage :=
      int32OfNat (data.getB 7 <<< 24 ||| data.getB 8 <<< 16 ||| data.getB 9 <<< 8 ||| data.getB 10)
    history_length := data.getB 11
    history := decode_stock_history (data.drop 12) (data.getB 11) }

/-- The HID layer strips the leading report-id byte before the firmware sees
the packet (`data[0] is the actual first byte`). -/
def stripReportId (buf : Buf) : Buf := buf.drop 1

/-- The mock DDOG record (price 132.50, day change +1.92 %, empty history),
used as a concrete interoperability test vector. -/
def ddogRecord : StockRecord :=
  { symbol := .DDOG
    marketOpen := true
    currentPrice := 265/2
    dayChangePercent := 48/25
    hourlyHistory := [] }

example : jsRound (ddogRecord.currentPrice * 100) = 13250 := by
  norm_num [jsRound, ddogRecord]

example : (decodeStock (stripReportId (StockData.serializeHead ddogRecord))).current_price
    = 3392000 := by
  have h1 : (jsRound (ddogRecord.currentPrice * 100)).toNat = 13250 := by
    have h : jsRound (ddogRecord.currentPrice * 100) = 13250 := by
      norm_num [jsRound, ddogRecord]
    rw [h]; rfl
  have h2 : jsRound (ddogRecord.dayChangePercent * 100) = 192 := by
    norm_num [jsRound, ddogRecord]
  simp only [StockData.serializeHead, h1, h2]
  decide

/-! ## `metro.ts` (current): transit encoder with tag-distinguished continuations -/

namespace MetroData

/-- One entry of `MetroData.lines` (field `name` holds the line identifier
character, e.g. `'9'` = 57). -/
structure Line where
  name : Nat
  incident : Bool
  message : List Nat

/-- Packets for one incident line (metro.ts lines 98–120): a head packet
(tag METRO, line char at 2, first 29 message bytes at 3), then — when the
message exceeds 29 (resp. 58) characters — one packet tagged
`DATA_TYPE.METRO_MESSAGE_1` (resp. `_2`) carrying `message.slice(29)`
(resp. `.slice(58)`).  Those two keys are absent from `fetcher.ts`, so the
tag writes go through the checked `writeUint8` model. -/
def serializeLine (l : Line) : Except String (List Buf) := do
  let payload := Buf.alloc 32
  let payload := payload.wUInt8 DATA_TYPE.METRO 1
  let payload := payload.wStr [l.name] 2 1
  let payload := payload.wStr l.message 3 29
  let cont1 ←
    if 29 < l.message.length then do
      let m := Buf.alloc 32
      let m ← m.wUInt8Checked DATA_TYPE.METRO_MESSAGE_1 1
      let m := m.wStr [l.name] 2 1
      let m := m.wStr (l.message.drop 29) 3 29
      pure [m]
    else pure []
  let cont2 ←
    if 29 * 2 < l.message.length then do
      let m := Buf.alloc 32
      let m ← m.wUInt8Checked DATA_TYPE.METRO_MESSAGE_2 1
      let m := m.wStr [l.name] 2 1
      let m := m.wStr (l.message.drop (29 * 2)) 3 29
      pure [m]
    else pure []
  pure (payload :: (cont1 ++ cont2))

/-- `MetroData.serialize`: packets of every line with an active incident. -/
def serialize (lines : List Line) : Except String (List Buf) :=
  (lines.filter (·.incident)).foldlM (fun acc l => do
    let ps ← serializeLine l
    pure (acc ++ ps)) ([] : List Buf)

/-- The packets of an `Except`-valued serializer (empty on a thrown error). -/
def okPackets : Except String (List Buf) → List Buf
  | .ok l => l
  | .error _ => []

end MetroData

/-! ## The offset-carrying transit encoder variant (`src/unnamed/part_001`)

This earlier `MetroData.serialize` matches the tag table of the current
`fetcher.ts` (`METRO_MESSAGE` = 4, `METRO_STATION` = 5) and carries an
explicit offset byte in every continuation packet. -/

namespace MetroV1

/-- One entry of this variant's `lines` map. -/
structure Line where
  line : Nat
  incident : Bool
  message : List Nat
  stations : List (List Nat)

/-- One continuation packet (part_001 lines 157–162): tag METRO_MESSAGE, line
char at 2, the explicit offset byte at 3, then `message.slice(offset,
offset+28)` from byte 4. -/
def contPacket (line : Nat) (msg : List Nat) (offset : Nat) : Buf :=
  let m := Buf.alloc 32
  let m := m.wUInt8 DATA_TYPE.METRO_MESSAGE 1
  let m := m.wStr [line] 2 1
  let m := m.wUInt8 offset 3
  m.wStr ((msg.drop offset).take 28) 4 28

/-- The loop `for (let offset = 29; offset < message.length; offset += 28)`,
written with an explicit iteration bound (`fuel`): every iteration advances
`offset` by 28, so `msg.length` iterations always suffice and the bound never
cuts the loop short. -/
def contPacketsAux (line : Nat) (msg : List Nat) : Nat → Nat → List Buf
  | _, 0 => []
  | offset, fuel + 1 =>
    if offset < msg.length then
      contPacket line msg offset :: contPacketsAux line msg (offset + 28) fuel
    else []

/-- The continuation packets emitted for `msg`, starting at offset 29. -/
def contPackets (line : Nat) (msg : List Nat) (offset : Nat) : List Buf :=
  contPacketsAux line msg offset msg.length

/-- One station packet (part_001 lines 167–175): tag METRO_STATION, line char,
station index, total station count, then the abbreviated name from byte 5. -/
def stationPacket (line : Nat) (i : Nat) (total : Nat) (name : List Nat) : Buf :=
  let p := Buf.alloc 32
  let p := p.wUInt8 DATA_TYPE.METRO_STATION 1
  let p := p.wStr [line] 2 1
  let p := p.wUInt8 i 3
  let p := p.wUInt8 total 4
  p.wStr name 5 name.length

/-- All packets of one incident line: head (29-byte message budget from
byte 3), offset-tagged continuations, then the station packets. -/
def serializeLine (l : Line) : List Buf :=
  let payload := Buf.alloc 32
  let payload := payload.wUInt8 DATA_TYPE.METRO 1
  let payload := payload.wStr [l.line] 2 1
  let payload := payload.wStr l.message 3 29
  (payload :: contPackets l.line l.message 29)
    ++ (List.range l.stations.length).map fun i =>
        stationPacket l.line i l.stations.length (l.stations.getD i [])

/-- This variant's `MetroData.serialize`. -/
def serialize (lines : List Line) : List Buf :=
  (lines.filter (·.incident)).flatMap serializeLine

/-- The offset bytes carried by the continuation packets of one message. -/
def contOffsets (line : Nat) (msg : List Nat) : List Nat :=
  (contPackets line msg 29).map (·.getB 3)

end MetroV1

/-! ## `weather.ts`: the weather encoder, and its firmware decoder -/

/-- The `WeatherData` fields at `serialize` time.  `refresh` stores
`Math.round`ed temperatures etc., so the numeric fields are integers here;
`sunrise`/`sunset` are 5-character `"HH:MM"` strings. -/
structure WeatherRecord where
  condition : Nat
  temperature : Int
  feelsLike : Int
  humidity : Nat
  pressure : Nat
  windSpeed : Nat
  sunrise : List Nat
  sunset : List Nat

namespace WeatherData

/-- `WeatherData.serialize` (weather.ts lines 115–137), the running `offset++`
bookkeeping of the source resolved to explicit offsets: report id 0, tag at 1,
condition at 2, int16 BE temperature at 3, feels-like at 5, humidity at 7,
uint16 BE pressure at 8, wind at 10, 5-byte ASCII sunrise at 11 and
sunset at 16. -/
def serialize (w : WeatherRecord) : List Buf :=
  let payload := Buf.alloc 32
  let payload := payload.wUInt8 0 0
  let payload := payload.wUInt8 DATA_TYPE.WEATHER 1
  let payload := payload.wUInt8 w.condition 2
  let payload := payload.wInt16BE w.temperature 3
  let payload := payload.wInt16BE w.feelsLike 5
  let payload := payload.wUInt8 w.humidity 7
  let payload := payload.wUInt16BE w.pressure 8
  let payload := payload.wUInt8 w.windSpeed 10
  let payload := payload.wStr w.sunrise 11 5
  let payload := payload.wStr w.sunset 16 5
  [payload]

end WeatherData

/-- The firmware's `weather_data` struct as filled by `raw_hid_receive`,
case `WEATHER_DATA_TYPE` (keymap.c lines 204–214). -/
structure FwWeather where
  condition : Nat
  temperature : Int
  feels_like : Int
  humidity : Nat
  pressure : Nat
  wind_speed : Nat
  sunrise : List Nat
  sunset : List Nat
deriving DecidableEq

/-- `raw_hid_receive`, weather case: `data` is the packet with the report-id
byte stripped.  `(int16_t)data[2] << 8 | data[3]` promotes to `int` and the
assignment back to `int16_t` wraps two's-complement, hence `int16OfNat`;
`strncpy(…, data + 10, 5)` copies the 5 sunrise bytes, `data + 15` sunset. -/
def decodeWeather (data : Buf) : FwWeather :=
  { condition := data.getB 1
    temperature := int16OfNat (data.getB 2 <<< 8 ||| data.getB 3)
    feels_like := int16OfNat (data.getB 4 <<< 8 ||| data.getB 5)
    humidity := data.getB 6
    pressure := data.getB 7 <<< 8 ||| data.getB 8
    wind_speed := data.getB 9
    sunrise := (data.drop 10).take 5
    sunset := (data.drop 15).take 5 }

/-! ## Liveness handshake (`keyboard.ts`, `main.ts`, `keymap.c`) -/

/-- The watchdog window: 10 minutes in milliseconds. -/
def WATCHDOG_MS : Int := 10 * 60 * 1000

/-- `isKeyboardActive` (keyboard.ts lines 52–54):
`Date.now() - lastHeartbeat > 10 * 60 * 1000`. -/
def isKeyboardActive (now lastHeartbeat : Int) : Bool :=
  now - lastHeartbeat > WATCHDOG_MS

/-- The `data` hook of `attachHooks` (keyboard.ts lines 30–34): a received
packet whose byte 1 equals 1 is a heartbeat and refreshes `lastHeartbeat`. -/
def onKeyboardData (lastHeartbeat now : Int) (data : Buf) : Int :=
  if data.getB 1 = 1 then now else lastHeartbeat

/-- The gate in `main` (main.ts lines 47–52): the refresh cycle is skipped
(and a 1-minute re-check delay used) exactly when `!isKeyboardActive()`. -/
def cycleSkipped (now lastHeartbeat : Int) : Bool :=
  !isKeyboardActive now lastHeartbeat

/-! ## Derived forms and concrete test vectors -/

/-- The packet list that `MetroData.serializeLine` returns (its `Except` value
is always `ok`, proved below): continuation packets get tag byte `0` because
`DATA_TYPE.METRO_MESSAGE_1/2` are `undefined`. -/
def MetroData.serializeLinePure (l : MetroData.Line) : List Buf :=
  let payload := Buf.alloc 32
  let payload := payload.wUInt8 DATA_TYPE.METRO 1
  let payload := payload.wStr [l.name] 2 1
  let payload := payload.wStr l.message 3 29
  let cont1 :=
    if 29 < l.message.length then
      [(((Buf.alloc 32).wUInt8 0 1).wStr [l.name] 2 1).wStr (l.message.drop 29) 3 29]
    else []
  let cont2 :=
    if 29 * 2 < l.message.length then
      [(((Buf.alloc 32).wUInt8 0 1).wStr [l.name] 2 1).wStr (l.message.drop (29 * 2)) 3 29]
    else []
  payload :: (cont1 ++ cont2)

/-- Number of continuation packets `for (let offset = 29; offset < L;
offset += 28)` emits for a message of length `L`. -/
def MetroV1.numCont (L : Nat) : Nat := (L - 29 + 27) / 28

/-- A deterministic ASCII test message of length `n`. -/
def msgOf (n : Nat) : List Nat := (List.range n).map fun i => 65 + i % 26

/-- The DDOG record with a two-sample constant history (for the history-length
layout check). -/
def ddog2 : StockRecord :=
  { symbol := .DDOG
    marketOpen := true
    currentPrice := 265/2
    dayChangePercent := 48/25
    hourlyHistory := [120, 120] }

/-- A line-9 incident with a 35-character message (needs one continuation). -/
def line35 : MetroData.Line :=
  { name := 57, incident := true, message := msgOf 35 }

/-- A line-9 incident with a 70-character message for the offset-carrying
variant (1 head + 2 continuations). -/
def line70V1 : MetroV1.Line :=
  { line := 57, incident := true, message := msgOf 70, stations := [] }

/-- A stock record with a constant price history of length `n`. -/
def stockOfLen (n : Nat) : StockRecord :=
  { symbol := .AAPL
    marketOpen := true
    currentPrice := 1
    dayChangePercent := 0
    hourlyHistory := List.replicate n (1 : ℚ) }

/-- A transit line whose message has length `n`. -/
def lineOfLen (n : Nat) : MetroData.Line :=
  { name := 57, incident := true, message := msgOf n }

/-- The weather scenario record: −5 °C, feels like −7 °C, sunrise 07:30
(`"07:30"` = [48, 55, 58, 51, 48]), sunset 18:45. -/
def weatherMinus5 : WeatherRecord :=
  { condition := 1
    temperature := -5
    feelsLike := -7
    humidity := 72
    pressure := 1013
    windSpeed := 3
    sunrise := [48, 55, 58, 51, 48]
    sunset := [49, 56, 58, 52, 53] }

/-- Modelled from the spec's words, for comparison with the code's
`normalizeSample` (refinement check for the quantization formula):
`round((s - min) / (max - min, or 1 if max == min) * 31)` clamped
to [0, 31]. -/
def specQuantize (s mn mx : ℚ) : Int :=
  max 0 (min 31 (jsRound ((s - mn) / (if mx = mn then 1 else mx - mn) * 31)))

/-- The DDOG record with history [120, 125, 130] (sample 1 exposes the
floor-versus-round difference at quantization input 15.5). -/
def ddog3 : StockRecord :=
  { symbol := .DDOG
    marketOpen := true
    currentPrice := 265/2
    dayChangePercent := 48/25
    hourlyHistory := [120, 125, 130] }

/-! ## Toolkit: length and byte-level lemmas about the buffer model -/

theorem Buf.len_wUInt8 (buf : Buf) (v off : Nat) : (buf.wUInt8 v off).len = buf.len := by
  simp [Buf.wUInt8, Buf.len]

theorem Buf.len_wUInt16BE (buf : Buf) (v off : Nat) : (buf.wUInt16BE v off).len = buf.len := by
  simp [Buf.wUInt16BE, Buf.len_wUInt8]

theorem Buf.len_wInt16BE (buf : Buf) (v : Int) (off : Nat) :
    (buf.wInt16BE v off).len = buf.len := by
  simp [Buf.wInt16BE, Buf.len_wUInt16BE]

theorem Buf.len_setBit (buf : Buf) (j k : Nat) : (buf.setBit j k).len = buf.len := by
  simp [Buf.setBit, Buf.len]

theorem Buf.len_wBytes (s : List Nat) : ∀ (buf : Buf) (off : Nat),
    (buf.wBytes s off).len = buf.len := by
  induction s with
  | nil => intro buf off; rfl
  | cons c cs ih => intro buf off; rw [Buf.wBytes, ih, Buf.len_wUInt8]

theorem Buf.len_wStr (buf : Buf) (s : List Nat) (off m : Nat) :
    (buf.wStr s off m).len = buf.len := by
  simp [Buf.wStr, Buf.len_wBytes]

theorem Buf.len_alloc (n : Nat) : (Buf.alloc n).len = n := by
  simp [Buf.alloc, Buf.len]

theorem Buf.getB_alloc (n i : Nat) : (Buf.alloc n).getB i = 0 := by
  simp [Buf.alloc, Buf.getB, List.getD_eq_getElem?_getD, List.getElem?_replicate]
  split <;> rfl

theorem Buf.getB_wUInt8_ne (buf : Buf) (v : Nat) {i j : Nat} (h : i ≠ j) :
    (buf.wUInt8 v i).getB j = buf.getB j := by
  simp [Buf.wUInt8, Buf.getB, List.getD_eq_getElem?_getD, List.getElem?_set_ne h]

theorem Buf.getB_wUInt8_eq (buf : Buf) (v : Nat) {i : Nat} (h : i < buf.len) :
    (buf.wUInt8 v i).getB i = v := by
  simp [Buf.wUInt8, Buf.getB, List.getD_eq_getElem?_getD, List.getElem?_set_eq_of_lt v h]

theorem Buf.getB_wBytes_lt (s : List Nat) : ∀ (buf : Buf) (off j : Nat), j < off →
    (buf.wBytes s off).getB j = buf.getB j := by
  induction s with
  | nil => intro buf off j _; rfl
  | cons c cs ih =>
    intro buf off j hj
    rw [Buf.wBytes, ih _ _ _ (by omega), Buf.getB_wUInt8_ne _ _ (by omega)]

theorem Buf.getB_wBytes_ge (s : List Nat) : ∀ (buf : Buf) (off j : Nat), off + s.length ≤ j →
    (buf.wBytes s off).getB j = buf.getB j := by
  induction s with
  | nil => intro buf off j _; rfl
  | cons c cs ih =>
    intro buf off j hj
    simp only [List.length_cons] at hj
    rw [Buf.wBytes, ih _ _ _ (by omega), Buf.getB_wUInt8_ne _ _ (by omega)]

theorem Buf.getB_wBytes_in (s : List Nat) : ∀ (buf : Buf) (off j : Nat), j < s.length →
    off + s.length ≤ buf.len → (buf.wBytes s off).getB (off + j) = s.getD j 0 := by
  induction s with
  | nil => intro buf off j hj _; simp at hj
  | cons c cs ih =>
    intro buf off j hj hlen
    simp only [List.length_cons] at hj hlen
    match j with
    | 0 =>
      rw [Buf.wBytes, Buf.getB_wBytes_lt _ _ _ _ (by omega)]
      simpa using Buf.getB_wUInt8_eq buf c (by omega)
    | j' + 1 =>
      have := ih (buf.wUInt8 c off) (off + 1) j' (by omega)
        (by rw [Buf.len_wUInt8]; omega)
      rw [Buf.wBytes]
      have harg : off + (j' + 1) = off + 1 + j' := by omega
      rw [harg, this]
      rfl

theorem Buf.getB_wStr_lt (buf : Buf) (s : List Nat) {off m j : Nat} (h : j < off) :
    (buf.wStr s off m).getB j = buf.getB j :=
  Buf.getB_wBytes_lt _ _ _ _ h

theorem Buf.getB_wStr_ge (buf : Buf) (s : List Nat) {off m j : Nat}
    (h : off + min m s.length ≤ j) : (buf.wStr s off m).getB j = buf.getB j := by
  refine Buf.getB_wBytes_ge _ _ _ _ ?_
  simp only [List.length_take]
  omega

theorem Buf.getB_wStr_in (buf : Buf) (s : List Nat) {off m j : Nat} (hj : j < s.length)
    (hm : j < m) (hlen : off + min m s.length ≤ buf.len) :
    (buf.wStr s off m).getB (off + j) = s.getD j 0 := by
  unfold Buf.wStr
  rw [Buf.getB_wBytes_in _ _ _ _ (by simp [List.length_take]; omega)
    (by simp [List.length_take]; omega)]
  simp [List.getD_eq_getElem?_getD, List.getElem?_take, hm]

theorem Buf.getB_drop (buf : Buf) (n j : Nat) :
    Buf.getB (buf.drop n) j = buf.getB (n + j) := by
  simp [Buf.getB, List.getD_eq_getElem?_getD, List.getElem?_drop]

/-! ## Toolkit: bit-level lemmas -/

theorem Buf.testB_eq_testBit (buf : Buf) (p : Nat) :
    buf.testB p = (buf.getB (p / 8)).testBit (p % 8) := by
  unfold Buf.testB
  have h3 : p >>> 3 = p / 8 := by
    rw [Nat.shiftRight_eq_div_pow]
  have h7 : p &&& 7 = p % 8 := by
    have := Nat.and_pow_two_sub_one_eq_mod p 3
    norm_num at this
    exact this
  rw [h3, h7, Nat.one_shiftLeft, Nat.and_two_pow]
  cases h : (buf.getB (p / 8)).testBit (p % 8) <;>
    simp [h, (Nat.two_pow_pos (p % 8)).ne']

theorem Buf.testB_alloc (n p : Nat) : (Buf.alloc n).testB p = false := by
  rw [Buf.testB_eq_testBit, Buf.getB_alloc]
  exact Nat.zero_testBit _

theorem Buf.testB_drop (buf : Buf) (m p : Nat) :
    Buf.testB (buf.drop m) p = buf.testB (8 * m + p) := by
  rw [Buf.testB_eq_testBit, Buf.testB_eq_testBit, Buf.getB_drop]
  have h1 : m + p / 8 = (8 * m + p) / 8 := by omega
  have h2 : p % 8 = (8 * m + p) % 8 := by omega
  rw [h1, h2]

theorem Buf.testB_setBit (buf : Buf) {j k : Nat} (hj : j < buf.len) (hk : k < 8) (q : Nat) :
    (buf.setBit j k).testB q = (buf.testB q || decide (q = 8 * j + k)) := by
  rw [Buf.testB_eq_testBit, Buf.testB_eq_testBit]
  unfold Buf.setBit
  by_cases hq : q / 8 = j
  · have : Buf.getB (List.set buf j (buf.getB j ||| 1 <<< k)) (q / 8)
        = buf.getB j ||| 1 <<< k := by
      rw [hq]; exact Buf.getB_wUInt8_eq buf _ hj
    rw [this, Nat.one_shiftLeft, Nat.testBit_or, Nat.testBit_two_pow]
    have : (q = 8 * j + k) ↔ (k = q % 8) := by omega
    simp [this, hq]
  · have : Buf.getB (List.set buf j (buf.getB j ||| 1 <<< k)) (q / 8) = buf.getB (q / 8) :=
      Buf.getB_wUInt8_ne buf _ (fun h => hq h.symm)
    rw [this]
    have : ¬(q = 8 * j + k) := by omega
    simp [this, hq]

/-- Bits below `i` of `2^i * a + b` are the bits of `b`. -/
theorem testBit_mul_two_pow_add_lt (a b : Nat) {i j : Nat} (hj : j < i) :
    (2 ^ i * a + b).testBit j = b.testBit j := by
  rw [Nat.testBit_to_div_mod, Nat.testBit_to_div_mod]
  have hsplit : 2 ^ i * a = 2 ^ j * (2 * (2 ^ (i - j - 1) * a)) := by
    rw [← Nat.mul_assoc, ← Nat.mul_assoc, ← Nat.pow_succ, ← Nat.pow_add]
    congr 2
    omega
  rw [hsplit, Nat.add_comm, Nat.add_mul_div_left _ _ (Nat.two_pow_pos j), Nat.add_mul_mod_self_left]

/-- Bits at and above `i` of `2^i * a + b` (with `b < 2^i`) are the bits of `a`. -/
theorem testBit_mul_two_pow_add_ge (a : Nat) {b i j : Nat} (hb : b < 2 ^ i) (hj : i ≤ j) :
    (2 ^ i * a + b).testBit j = a.testBit (j - i) := by
  rw [Nat.testBit_to_div_mod, Nat.testBit_to_div_mod]
  have hpow : 2 ^ j = 2 ^ i * 2 ^ (j - i) := by
    rw [← Nat.pow_add]; congr 1; omega
  rw [hpow, ← Nat.div_div_eq_div_mul, Nat.mul_add_div (Nat.two_pow_pos i),
    Nat.div_eq_of_lt hb, Nat.add_zero]

/-- For `b` below `2^i`, OR with a value shifted left by `i` is addition
(the bit ranges are disjoint). -/
theorem shiftLeft_or_eq_add {a b i : Nat} (h : b < 2 ^ i) :
    a <<< i ||| b = a <<< i + b := by
  have hs : a <<< i = 2 ^ i * a := by rw [Nat.shiftLeft_eq, Nat.mul_comm]
  apply Nat.eq_of_testBit_eq
  intro j
  rw [Nat.testBit_or, hs]
  by_cases hj : j < i
  · rw [testBit_mul_two_pow_add_lt _ _ hj]
    have : (2 ^ i * a).testBit j = false := by
      rw [show (2 ^ i * a) = 2 ^ i * a + 0 by omega, testBit_mul_two_pow_add_lt _ _ hj]
      exact Nat.zero_testBit j
    simp [this]
  · have hj' : i ≤ j := by omega
    rw [testBit_mul_two_pow_add_ge _ h hj',
      show (2 ^ i * a) = 2 ^ i * a + 0 by omega, testBit_mul_two_pow_add_ge _ (Nat.two_pow_pos i) hj']
    have : b.testBit j = false :=
      Nat.testBit_lt_two_pow (Nat.lt_of_lt_of_le h (Nat.pow_le_pow_right (by omega) hj'))
    simp [this]

/-- Recombining the two bytes written by `writeInt16BE` through the firmware's
`(int16_t)hi << 8 | lo` recovers the written int16 value. -/
theorem int16_roundtrip (v : Int) (h1 : -32768 ≤ v) (h2 : v ≤ 32767) :
    int16OfNat (((v.emod 65536).toNat / 256 % 256) <<< 8 ||| (v.emod 65536).toNat % 256) = v := by
  set u := (v.emod 65536).toNat with hu_def
  have hu : (u : Int) = v % 65536 := Int.toNat_of_nonneg (Int.emod_nonneg v (by norm_num))
  have hu2 : u < 65536 := by
    have := Int.emod_lt_of_pos v (show (0:Int) < 65536 by norm_num)
    omega
  have h256 : u / 256 % 256 = u / 256 := Nat.mod_eq_of_lt (by omega)
  have hor : (u / 256) <<< 8 ||| u % 256 = u := by
    rw [shiftLeft_or_eq_add (show u % 256 < 2 ^ 8 by omega), Nat.shiftLeft_eq]
    norm_num
    omega
  rw [h256, hor]
  unfold int16OfNat
  have hp15 : (2 : Nat) ^ 15 = 32768 := by norm_num
  have hp16 : (2 : Int) ^ 16 = 65536 := by norm_num
  rw [hp15, hp16]
  split <;> omega

/-! ## Toolkit: bit-packing correctness -/

theorem testB_packBitsLoop (n : Nat) : ∀ (buf : Buf) (base p v q : Nat),
    8 * base + p + n ≤ 8 * buf.len →
    (packBitsLoop buf base p v n).testB q =
      (buf.testB q ||
        (decide (8 * base + p ≤ q) && decide (q < 8 * base + p + n)
          && v.testBit (q - (8 * base + p)))) := by
  induction n with
  | zero =>
    intro buf base p v q _
    rw [packBitsLoop]
    rcases Nat.lt_or_ge q (8 * base + p) with h | h
    · rw [decide_eq_false (by omega : ¬ (8 * base + p ≤ q))]
      simp
    · rw [decide_eq_false (by omega : ¬ (q < 8 * base + p + 0))]
      simp
  | succ n ih =>
    intro buf base p v q hle
    have e1 : p >>> 3 = p / 8 := by rw [Nat.shiftRight_eq_div_pow]
    have e2 : p &&& 7 = p % 8 := by
      have := Nat.and_pow_two_sub_one_eq_mod p 3
      norm_num at this; exact this
    have hstep : ∀ buf' : Buf, buf'.len = buf.len →
        (packBitsLoop buf' base (p + 1) (v >>> 1) n).testB q =
          (buf'.testB q ||
            (decide (8 * base + (p + 1) ≤ q) && decide (q < 8 * base + (p + 1) + n)
              && (v >>> 1).testBit (q - (8 * base + (p + 1))))) := by
      intro buf' hlen'
      exact ih buf' base (p + 1) (v >>> 1) q (by rw [hlen']; omega)
    have hsb : (v >>> 1).testBit (q - (8 * base + (p + 1)))
        = v.testBit (1 + (q - (8 * base + (p + 1)))) := Nat.testBit_shiftRight v
    rw [packBitsLoop]
    by_cases hv : v &&& 1 = 1
    · rw [if_pos hv]
      rw [hstep _ (by rw [Buf.len_setBit])]
      rw [Buf.testB_setBit buf (by omega) (by rw [e2]; omega) q]
      rw [show 8 * (base + p >>> 3) + (p &&& 7) = 8 * base + p by rw [e1, e2]; omega]
      have hbit0 : v.testBit 0 = true := by
        rw [Nat.testBit_zero]
        have := Nat.and_one_is_mod v
        simp only [decide_eq_true_eq]
        omega
      rcases Nat.lt_trichotomy q (8 * base + p) with h | h | h
      · rw [decide_eq_false (by omega : ¬ (8 * base + p ≤ q)),
          decide_eq_false (by omega : ¬ (8 * base + (p + 1) ≤ q)),
          decide_eq_false (by omega : ¬ (q = 8 * base + p))]
        simp
      · rw [decide_eq_true (by omega : 8 * base + p ≤ q),
          decide_eq_false (by omega : ¬ (8 * base + (p + 1) ≤ q)),
          decide_eq_true (by omega : q = 8 * base + p),
          decide_eq_true (by omega : q < 8 * base + p + (n + 1)),
          show q - (8 * base + p) = 0 by omega, hbit0]
        simp
      · rw [decide_eq_true (by omega : 8 * base + p ≤ q),
          decide_eq_true (by omega : 8 * base + (p + 1) ≤ q),
          decide_eq_false (by omega : ¬ (q = 8 * base + p)), hsb,
          show 1 + (q - (8 * base + (p + 1))) = q - (8 * base + p) by omega]
        by_cases hw : q < 8 * base + p + (n + 1)
        · rw [decide_eq_true (by omega : q < 8 * base + (p + 1) + n), decide_eq_true hw]
          simp
        · rw [decide_eq_false (by omega : ¬ (q < 8 * base + (p + 1) + n)),
            decide_eq_false hw]
          simp
    · rw [if_neg hv]
      rw [hstep buf rfl]
      have hbit0 : v.testBit 0 = false := by
        rw [Nat.testBit_zero]
        have h1 := Nat.and_one_is_mod v
        have h2 : v % 2 < 2 := Nat.mod_lt v (by omega)
        simp only [decide_eq_false_iff_not]
        omega
      rcases Nat.lt_trichotomy q (8 * base + p) with h | h | h
      · rw [decide_eq_false (by omega : ¬ (8 * base + p ≤ q)),
          decide_eq_false (by omega : ¬ (8 * base + (p + 1) ≤ q))]
        simp
      · rw [decide_eq_true (by omega : 8 * base + p ≤ q),
          decide_eq_false (by omega : ¬ (8 * base + (p + 1) ≤ q)),
          show q - (8 * base + p) = 0 by omega, hbit0]
        simp
      · rw [decide_eq_true (by omega : 8 * base + p ≤ q),
          decide_eq_true (by omega : 8 * base + (p + 1) ≤ q), hsb,
          show 1 + (q - (8 * base + (p + 1))) = q - (8 * base + p) by omega]
        by_cases hw : q < 8 * base + p + (n + 1)
        · rw [decide_eq_true (by omega : q < 8 * base + (p + 1) + n), decide_eq_true hw]
        · rw [decide_eq_false (by omega : ¬ (q < 8 * base + (p + 1) + n)),
            decide_eq_false hw]

theorem len_packBitsLoop (n : Nat) : ∀ (buf : Buf) (base p v : Nat),
    (packBitsLoop buf base p v n).len = buf.len := by
  induction n with
  | zero => intro buf base p v; rfl
  | succ n ih =>
    intro buf base p v
    rw [packBitsLoop, ih]
    by_cases hv : v &&& 1 = 1
    · rw [if_pos hv, Buf.len_setBit]
    · rw [if_neg hv]

theorem len_packValue (buf : Buf) (base p v : Nat) :
    (packValue buf base p v).len = buf.len := len_packBitsLoop 5 buf base p v

theorem len_packValues (vals : List Nat) : ∀ (buf : Buf) (base p : Nat),
    (packValues buf base p vals).len = buf.len := by
  induction vals with
  | nil => intro buf base p; rfl
  | cons v vs ih =>
    intro buf base p
    rw [packValues, ih, len_packValue]

theorem testB_packValues (vals : List Nat) : ∀ (buf : Buf) (base p q : Nat),
    8 * base + p + 5 * vals.length ≤ 8 * buf.len →
    (packValues buf base p vals).testB q =
      (buf.testB q ||
        (decide (8 * base + p ≤ q) && decide (q < 8 * base + p + 5 * vals.length)
          && ((vals.getD ((q - (8 * base + p)) / 5) 0).testBit ((q - (8 * base + p)) % 5)))) := by
  induction vals with
  | nil =>
    intro buf base p q _
    rw [packValues]
    rcases Nat.lt_or_ge q (8 * base + p) with h | h
    · rw [decide_eq_false (by omega : ¬ (8 * base + p ≤ q))]
      simp
    · rw [decide_eq_false (by simp; omega : ¬ (q < 8 * base + p + 5 * List.length []))]
      simp
  | cons v vs ih =>
    intro buf base p q hle
    have hlen5 : List.length (v :: vs) = vs.length + 1 := rfl
    rw [packValues]
    rw [ih (packValue buf base p v) base (p + 5) q
      (by rw [len_packValue]; simp only [hlen5] at hle; omega)]
    rw [packValue, testB_packBitsLoop 5 buf base p v q
      (by simp only [hlen5] at hle; omega)]
    rcases Nat.lt_trichotomy q (8 * base + p) with h | h | h
    · rw [decide_eq_false (by omega : ¬ (8 * base + p ≤ q)),
        decide_eq_false (by omega : ¬ (8 * base + (p + 5) ≤ q))]
      simp
    · rcases Nat.lt_or_ge q (8 * base + p + 5) with h5 | h5
      · have ht : q - (8 * base + p) < 5 := by omega
        rw [decide_eq_true (by omega : 8 * base + p ≤ q),
          decide_eq_true (by omega : q < 8 * base + p + 5),
          decide_eq_false (by omega : ¬ (8 * base + (p + 5) ≤ q)),
          decide_eq_true (by simp only [hlen5]; omega :
            q < 8 * base + p + 5 * (v :: vs).length),
          show (q - (8 * base + p)) / 5 = 0 by omega,
          show (q - (8 * base + p)) % 5 = q - (8 * base + p) by omega]
        simp
      · have ht : 5 ≤ q - (8 * base + p) := by omega
        rw [decide_eq_true (by omega : 8 * base + p ≤ q),
          decide_eq_false (by omega : ¬ (q < 8 * base + p + 5)),
          decide_eq_true (by omega : 8 * base + (p + 5) ≤ q)]
        have hdiv : (q - (8 * base + p)) / 5 = (q - (8 * base + (p + 5))) / 5 + 1 := by
          omega
        have hmod : (q - (8 * base + p)) % 5 = (q - (8 * base + (p + 5))) % 5 := by
          omega
        have hwin : decide (q < 8 * base + (p + 5) + 5 * vs.length)
            = decide (q < 8 * base + p + 5 * (v :: vs).length) := by
          simp only [hlen5]
          by_cases hw : q < 8 * base + p + 5 * (vs.length + 1)
          · rw [decide_eq_true (by omega : q < 8 * base + (p + 5) + 5 * vs.length),
              decide_eq_true hw]
          · rw [decide_eq_false (by omega : ¬ (q < 8 * base + (p + 5) + 5 * vs.length)),
              decide_eq_false hw]
        rw [hdiv, hmod, hwin, List.getD_cons_succ]
        simp
    · -- identical to the middle case with 8 * base + p < q; handled uniformly above
      rcases Nat.lt_or_ge q (8 * base + p + 5) with h5 | h5
      · have ht : q - (8 * base + p) < 5 := by omega
        rw [decide_eq_true (by omega : 8 * base + p ≤ q),
          decide_eq_true (by omega : q < 8 * base + p + 5),
          decide_eq_false (by omega : ¬ (8 * base + (p + 5) ≤ q)),
          decide_eq_true (by simp only [hlen5]; omega :
            q < 8 * base + p + 5 * (v :: vs).length),
          show (q - (8 * base + p)) / 5 = 0 by omega,
          show (q - (8 * base + p)) % 5 = q - (8 * base + p) by omega]
        simp
      · have ht : 5 ≤ q - (8 * base + p) := by omega
        rw [decide_eq_true (by omega : 8 * base + p ≤ q),
          decide_eq_false (by omega : ¬ (q < 8 * base + p + 5)),
          decide_eq_true (by omega : 8 * base + (p + 5) ≤ q)]
        have hdiv : (q - (8 * base + p)) / 5 = (q - (8 * base + (p + 5))) / 5 + 1 := by
          omega
        have hmod : (q - (8 * base + p)) % 5 = (q - (8 * base + (p + 5))) % 5 := by
          omega
        have hwin : decide (q < 8 * base + (p + 5) + 5 * vs.length)
            = decide (q < 8 * base + p + 5 * (v :: vs).length) := by
          simp only [hlen5]
          by_cases hw : q < 8 * base + p + 5 * (vs.length + 1)
          · rw [decide_eq_true (by omega : q < 8 * base + (p + 5) + 5 * vs.length),
              decide_eq_true hw]
          · rw [decide_eq_false (by omega : ¬ (q < 8 * base + (p + 5) + 5 * vs.length)),
              decide_eq_false hw]
        rw [hdiv, hmod, hwin, List.getD_cons_succ]
        simp

theorem readBitsLoop_eq (n : Nat) : ∀ (data : Buf) (p v : Nat), v < 2 ^ n →
    (∀ b, b < n → data.testB (p + b) = v.testBit b) →
    readBitsLoop data p n = v := by
  induction n with
  | zero =>
    intro data p v hv _
    rw [readBitsLoop]
    omega
  | succ n ih =>
    intro data p v hv hbits
    rw [readBitsLoop]
    have h0 : data.testB p = v.testBit 0 := by
      have := hbits 0 (by omega)
      simpa using this
    have hpow : 2 ^ (n + 1) = 2 * 2 ^ n := by rw [Nat.pow_succ]; ring
    have hrec : readBitsLoop data (p + 1) n = v / 2 := by
      apply ih
      · omega
      · intro b hb
        have := hbits (b + 1) (by omega)
        rw [show p + (b + 1) = p + 1 + b by omega] at this
        rw [this, Nat.testBit_add_one]
    rw [h0, hrec, Nat.testBit_zero]
    by_cases hb : v % 2 = 1
    · rw [decide_eq_true hb]
      simp
      omega
    · rw [decide_eq_false hb]
      simp
      omega

/-! ## Claim theorems -/

/-- **C1** (code bug): the liveness check and the cycle gate are inverted.
After a heartbeat lands at time 1000 (`onKeyboardData` stores the timestamp),
a query at the same instant — elapsed 0, squarely inside `[T, T+W)` — makes
`isKeyboardActive` report `false` and makes `main` skip the refresh cycle,
while a query past `T + W` reports `true` and runs the cycle: exactly the
opposite of the claimed (and intended, per main.ts's own log message
`keyboard is inactive, skip refresh`) behaviour. -/
theorem C1_liveness_gate_inverted :
    onKeyboardData 0 1000 heartbeatPacket = 1000 ∧
    isKeyboardActive 1000 1000 = false ∧
    cycleSkipped 1000 1000 = true ∧
    isKeyboardActive (1000 + WATCHDOG_MS) 1000 = false ∧
    isKeyboardActive (1000 + WATCHDOG_MS + 1) 1000 = true ∧
    cycleSkipped (1000 + WATCHDOG_MS + 1) 1000 = false := by
  refine ⟨?_, ?_, ?_, ?_, ?_, ?_⟩ <;> decide

/-- **C2** (code bug): the encoder writes the canonical head layout (price as
3 bytes big-endian at payload offsets 2–4, day change as int16 BE at 5–6,
history length at 7), but the firmware decoder reads a 4-byte big-endian
price at payload offsets 2–5, a 4-byte day change at 6–9 and the history
length at payload offset 10.  On the DDOG record (price 132.50, change
+1.92 %): the encoded price field is 13250 but the firmware decodes
3392000 = 13250·256, the encoded change is 192 but the firmware decodes
−1073741824, and a 2-sample history decodes with `history_length = 0`. -/
theorem C2_stock_layout_mismatch :
    jsRound (ddogRecord.currentPrice * 100) = 13250 ∧
    (decodeStock (stripReportId (StockData.serializeHead ddogRecord))).index = 0 ∧
    (decodeStock (stripReportId (StockData.serializeHead ddogRecord))).openFlag = true ∧
    (decodeStock (stripReportId (StockData.serializeHead ddogRecord))).current_price
      = 3392000 ∧
    (decodeStock (stripReportId (StockData.serializeHead ddogRecord))).day_change_percentage
      = -1073741824 ∧
    (decodeStock (stripReportId (StockData.serializeHead ddog2))).history_length = 0 ∧
    ddog2.hourlyHistory.length = 2 := by
  have hpr : (jsRound (ddogRecord.currentPrice * 100)).toNat = 13250 := by
    have h : jsRound (ddogRecord.currentPrice * 100) = 13250 := by
      norm_num [jsRound, ddogRecord]
    rw [h]; rfl
  have hch : jsRound (ddogRecord.dayChangePercent * 100) = 192 := by
    norm_num [jsRound, ddogRecord]
  have hpr2 : (jsRound (ddog2.currentPrice * 100)).toNat = 13250 := by
    have h : jsRound (ddog2.currentPrice * 100) = 13250 := by
      norm_num [jsRound, ddog2]
    rw [h]; rfl
  have hch2 : jsRound (ddog2.dayChangePercent * 100) = 192 := by
    norm_num [jsRound, ddog2]
  have hmap : (List.take 35 ddog2.hourlyHistory).map
      (fun p => (normalizeSample p (listMin ddog2.hourlyHistory)
        (listMax ddog2.hourlyHistory)).toNat) = [0, 0] := by
    have hmm : listMin ddog2.hourlyHistory = 120 := by
      show listMin [(120 : ℚ), 120] = 120
      simp [listMin]
    have hmx : listMax ddog2.hourlyHistory = 120 := by
      show listMax [(120 : ℚ), 120] = 120
      simp [listMax]
    rw [hmm, hmx]
    show List.map _ [(120 : ℚ), 120] = [0, 0]
    have hn : (normalizeSample 120 120 120).toNat = 0 := by
      have : normalizeSample (120 : ℚ) 120 120 = 0 := by
        norm_num [normalizeSample, rangeOf]
      rw [this]; rfl
    simp [hn]
  refine ⟨?_, ?_, ?_, ?_, ?_, ?_, ?_⟩
  · norm_num [jsRound, ddogRecord]
  · simp only [StockData.serializeHead]; rw [hpr, hch]; decide
  · simp only [StockData.serializeHead]; rw [hpr, hch]; decide
  · simp only [StockData.serializeHead]; rw [hpr, hch]; decide
  · simp only [StockData.serializeHead]; rw [hpr, hch]; decide
  · simp only [StockData.serializeHead]; rw [hpr2, hch2, hmap]; decide
  · decide

/-- **C4 counterexample**: the stock domain violates the claim.  With one
previously fetched record stored, a failed upstream refresh (the `catch` in
`StockData.refresh` swallows the error) still runs the encoder and hands one
packet to the send loop — the claim says no packet of the domain is sent. -/
theorem C4_counterexample :
    StockData.refresh [ddogRecord] none = [ddogRecord] ∧
    (refreshAndSendStock [ddogRecord] none).length = 1 := by
  constructor
  · rfl
  · rfl

/-- **C4 amended**: a failed stock refresh is caught inside
`StockData.refresh`, leaving the stored records unchanged; `serialize` still
runs that cycle, so exactly the packets of the previously fetched state are
re-sent (receiver state persists because identical data arrives again, not
because sending is skipped); only with no stored state does a failed cycle
send nothing. -/
theorem C4_stock_refresh_failure (stored : List StockRecord) :
    StockData.refresh stored none = stored ∧
    refreshAndSendStock stored none = StockData.serialize stored ∧
    refreshAndSendStock [] none = [] :=
  ⟨rfl, rfl, rfl⟩

/-- **C3 counterexample**: the quantizer uses `Math.floor`, not the claimed
clamped `Math.round`.  For sample 125 with bounds 120/130 the claim's formula
gives `round(15.5) = 16` but the code stores `floor(15.5) = 15`; the packed
head packet of a `[120, 125, 130]` history indeed carries 15 in field 1. -/
theorem C3_counterexample :
    specQuantize 125 120 130 = 16 ∧
    normalizeSample 125 120 130 = 15 ∧
    read5 (List.drop 10 (StockData.serializeHead ddog3)) 1 = 15 := by
  refine ⟨?_, ?_, ?_⟩
  · norm_num [specQuantize, jsRound]
  · norm_num [normalizeSample, rangeOf]
  · have hpr : (jsRound (ddog3.currentPrice * 100)).toNat = 13250 := by
      have h : jsRound (ddog3.currentPrice * 100) = 13250 := by
        norm_num [jsRound, ddog3]
      rw [h]; rfl
    have hch : jsRound (ddog3.dayChangePercent * 100) = 192 := by
      norm_num [jsRound, ddog3]
    have hmap : (List.take 35 ddog3.hourlyHistory).map
        (fun p => (normalizeSample p (listMin ddog3.hourlyHistory)
          (listMax ddog3.hourlyHistory)).toNat) = [0, 15, 31] := by
      have hmm : listMin ddog3.hourlyHistory = 120 := by
        show listMin [(120 : ℚ), 125, 130] = 120
        norm_num [listMin]
      have hmx : listMax ddog3.hourlyHistory = 130 := by
        show listMax [(120 : ℚ), 125, 130] = 130
        norm_num [listMax]
      rw [hmm, hmx]
      show List.map _ [(120 : ℚ), 125, 130] = [0, 15, 31]
      have h0 : (normalizeSample 120 120 130).toNat = 0 := by
        have : normalizeSample (120 : ℚ) 120 130 = 0 := by
          norm_num [normalizeSample, rangeOf]
        rw [this]; rfl
      have h15 : (normalizeSample 125 120 130).toNat = 15 := by
        have : normalizeSample (125 : ℚ) 120 130 = 15 := by
          norm_num [normalizeSample, rangeOf]
        rw [this]; rfl
      have h31 : (normalizeSample 130 120 130).toNat = 31 := by
        have : normalizeSample (130 : ℚ) 120 130 = 31 := by
          norm_num [normalizeSample, rangeOf]
        rw [this]; rfl
      simp [h0, h15, h31]
    simp only [StockData.serializeHead]
    rw [hpr, hch, hmap]
    decide

/-- **C3 amended**: the encoded 5-bit value is
`floor((s − min) / (max − min, or 1 if equal) · 31)`; no explicit clamp is
performed, and none is needed: whenever `min ≤ s ≤ max` the value already
lies in [0, 31].  For the history [120, 130] the samples quantize to 0
and 31. -/
theorem C3_floor_quantization :
    (∀ s mn mx : ℚ, mn ≤ s → s ≤ mx →
      0 ≤ normalizeSample s mn mx ∧ normalizeSample s mn mx ≤ 31) ∧
    normalizeSample 120 120 130 = 0 ∧ normalizeSample 130 120 130 = 31 := by
  refine ⟨?_, ?_, ?_⟩
  · intro s mn mx h1 h2
    unfold normalizeSample rangeOf
    by_cases hz : mx - mn = 0
    · rw [if_pos hz]
      have hs : s = mn := by linarith
      subst hs
      norm_num
    · rw [if_neg hz]
      have hpos : 0 < mx - mn := by
        rcases lt_or_le 0 (mx - mn) with h | h
        · exact h
        · exfalso; apply hz; linarith
      have hle1 : (s - mn) / (mx - mn) ≤ 1 := by
        rw [div_le_one hpos]; linarith
      have hge0 : 0 ≤ (s - mn) / (mx - mn) := by
        apply div_nonneg <;> linarith
      constructor
      · apply Int.floor_nonneg.mpr
        nlinarith
      · have : (s - mn) / (mx - mn) * 31 ≤ 31 := by nlinarith
        calc ⌊(s - mn) / (mx - mn) * 31⌋ ≤ ⌊(31 : ℚ)⌋ := Int.floor_le_floor this
          _ = 31 := by norm_num
  · norm_num [normalizeSample, rangeOf]
  · norm_num [normalizeSample, rangeOf]

/-- Witness for `C3_floor_quantization`: the bound theorem applied to the
concrete sample 125 with bounds 120/130. -/
theorem C3_floor_quantization_witness :
    0 ≤ normalizeSample 125 120 130 ∧ normalizeSample 125 120 130 ≤ 31 :=
  C3_floor_quantization.1 125 120 130 (by norm_num) (by norm_num)

/-- **C7**: packing/reading round trip.  For any sequence of quantized 5-bit
values of length at most the head-packet cap (35 — the most that fits the
22-byte field region at byte 10), reading 5 bits least-significant-bit-first
at bit positions `i*5 … i*5+4` for every index `i` (the firmware's
`decode_stock_history` discipline) from the buffer packed by the serializer's
bit loop reproduces each value exactly. -/
theorem C7_pack_read_roundtrip (vals : List Nat) (h31 : ∀ v ∈ vals, v ≤ 31)
    (hcap : vals.length ≤ 35) :
    readValues (List.drop 10 (packValues (Buf.alloc 32) 10 0 vals)) vals.length = vals := by
  have hn : (readValues (List.drop 10 (packValues (Buf.alloc 32) 10 0 vals))
      vals.length).length = vals.length := by
    simp [readValues]
  apply List.ext_getElem hn
  intro i h1 h2
  simp only [readValues, List.getElem_map, List.getElem_range]
  rw [read5]
  apply readBitsLoop_eq
  · have hmem : vals[i] ∈ vals := List.getElem_mem h2
    have := h31 _ hmem
    show vals[i] < 2 ^ 5
    omega
  · intro b hb
    rw [Buf.testB_drop]
    rw [testB_packValues vals (Buf.alloc 32) 10 0 (8 * 10 + (i * 5 + b))
      (by rw [Buf.len_alloc]; omega)]
    rw [Buf.testB_alloc]
    rw [decide_eq_true (by omega : 8 * 10 + 0 ≤ 8 * 10 + (i * 5 + b))]
    rw [decide_eq_true (by omega : 8 * 10 + (i * 5 + b) < 8 * 10 + 0 + 5 * vals.length)]
    rw [show 8 * 10 + (i * 5 + b) - (8 * 10 + 0) = i * 5 + b by omega]
    rw [show (i * 5 + b) / 5 = i by omega, show (i * 5 + b) % 5 = b by omega]
    rw [List.getD_eq_getElem?_getD, List.getElem?_eq_getElem h2]
    simp

/-- Witness for `C7_pack_read_roundtrip` at a concrete 8-value sequence. -/
theorem C7_pack_read_roundtrip_witness :
    readValues (List.drop 10 (packValues (Buf.alloc 32) 10 0 [0, 31, 17, 5, 30, 1, 2, 3]))
      (List.length [0, 31, 17, 5, 30, 1, 2, 3]) = [0, 31, 17, 5, 30, 1, 2, 3] :=
  C7_pack_read_roundtrip [0, 31, 17, 5, 30, 1, 2, 3] (by decide) (by decide)

theorem packBitsLoop_zero (n : Nat) : ∀ (buf : Buf) (base p : Nat),
    packBitsLoop buf base p 0 n = buf := by
  induction n with
  | zero => intro buf base p; rfl
  | succ n ih =>
    intro buf base p
    rw [packBitsLoop, if_neg (by decide), Nat.zero_shiftRight, ih]

theorem packValues_zeros (vs : List Nat) (h : ∀ v ∈ vs, v = 0) :
    ∀ (buf : Buf) (base p : Nat), packValues buf base p vs = buf := by
  induction vs with
  | nil => intro buf base p; rfl
  | cons v vs ih =>
    intro buf base p
    have hv : v = 0 := h v (List.mem_cons_self v vs)
    rw [packValues, hv, packValue, packBitsLoop_zero]
    exact ih (fun a ha => h a (List.mem_cons_of_mem v ha)) buf base (p + 5)

theorem foldl_min_const (x : ℚ) (xs : List ℚ) (h : ∀ a ∈ xs, a = x) :
    xs.foldl min x = x := by
  induction xs with
  | nil => rfl
  | cons y ys ih =>
    have hy : y = x := h y (List.mem_cons_self y ys)
    rw [List.foldl_cons, hy, min_self]
    exact ih fun a ha => h a (List.mem_cons_of_mem y ha)

theorem foldl_max_const (x : ℚ) (xs : List ℚ) (h : ∀ a ∈ xs, a = x) :
    xs.foldl max x = x := by
  induction xs with
  | nil => rfl
  | cons y ys ih =>
    have hy : y = x := h y (List.mem_cons_self y ys)
    rw [List.foldl_cons, hy, max_self]
    exact ih fun a ha => h a (List.mem_cons_of_mem y ha)

theorem normalizeSample_self (x : ℚ) : normalizeSample x x x = 0 := by
  unfold normalizeSample rangeOf
  norm_num

theorem Buf.getB_eq_getElem (buf : Buf) (j : Nat) (h : j < buf.len) :
    buf.getB j = buf[j] := by
  simp [Buf.getB, List.getD_eq_getElem?_getD, List.getElem?_eq_getElem h]

theorem drop10_eq_replicate (P : Buf) (hlen : P.len = 32)
    (hz : ∀ j, 10 ≤ j → P.getB j = 0) : List.drop 10 P = List.replicate 22 0 := by
  have hlen' : P.length = 32 := hlen
  apply List.ext_getElem
  · simp [List.length_drop, hlen']
  · intro j h1 h2
    rw [List.getElem_replicate]
    have hj22 : j < 22 := by
      simp only [List.length_drop, hlen'] at h1
      omega
    have hdl : j < Buf.len (List.drop 10 P) := by
      show j < (List.drop 10 P).length
      simp [List.length_drop, hlen']
      omega
    rw [← Buf.getB_eq_getElem _ _ hdl, Buf.getB_drop, hz (10 + j) (by omega)]

/-- **C9**: a series that is empty or has all samples equal encodes without
any division by zero — the `|| 1` guard turns the zero range into 1 (for the
empty series the per-sample loop body, and with it the only division, never
executes) — and the packed 5-bit field region (bytes 10–31 of the head
packet) is left all-zero. -/
theorem C9_degenerate_series (s : StockRecord)
    (hconst : ∀ a ∈ s.hourlyHistory, ∀ b ∈ s.hourlyHistory, a = b) :
    (s.hourlyHistory ≠ [] →
      rangeOf (listMin s.hourlyHistory) (listMax s.hourlyHistory) = 1) ∧
    List.drop 10 (StockData.serializeHead s) = List.replicate 22 0 := by
  have hminmax : ∀ x xs, s.hourlyHistory = x :: xs →
      listMin s.hourlyHistory = x ∧ listMax s.hourlyHistory = x := by
    intro x xs hcons
    have hall : ∀ a ∈ xs, a = x := by
      intro a ha
      exact hconst a (by rw [hcons]; exact List.mem_cons_of_mem x ha) x
        (by rw [hcons]; exact List.mem_cons_self x xs)
    rw [hcons]
    exact ⟨foldl_min_const x xs hall, foldl_max_const x xs hall⟩
  constructor
  · intro hne
    obtain ⟨x, xs, hh⟩ := List.exists_cons_of_ne_nil hne
    obtain ⟨hmn, hmx⟩ := hminmax x xs hh
    rw [hmn, hmx]
    unfold rangeOf
    norm_num
  · have hzero : ∀ v ∈ (List.take 35 s.hourlyHistory).map
        (fun p => (normalizeSample p (listMin s.hourlyHistory)
          (listMax s.hourlyHistory)).toNat), v = 0 := by
      intro v hv
      rcases List.mem_map.mp hv with ⟨p, hp, hpv⟩
      have hpmem : p ∈ s.hourlyHistory := List.mem_of_mem_take hp
      obtain ⟨x, xs, hh⟩ := List.exists_cons_of_ne_nil (List.ne_nil_of_mem hpmem)
      obtain ⟨hmn, hmx⟩ := hminmax x xs hh
      have hpx : p = x := hconst p hpmem x (by rw [hh]; exact List.mem_cons_self x xs)
      rw [← hpv, hmn, hmx, hpx, normalizeSample_self]
      rfl
    simp only [StockData.serializeHead]
    rw [packValues_zeros _ hzero]
    apply drop10_eq_replicate
    · rw [Buf.len_wUInt8, Buf.len_wInt16BE, Buf.len_wUInt8, Buf.len_wUInt16BE,
        Buf.len_wUInt8, Buf.len_wUInt8, Buf.len_wUInt8, Buf.len_alloc]
    · intro j hj
      simp only [Buf.wInt16BE, Buf.wUInt16BE]
      rw [Buf.getB_wUInt8_ne _ _ (by omega : (9 : Nat) ≠ j),
        Buf.getB_wUInt8_ne _ _ (by omega : (7 + 1 : Nat) ≠ j),
        Buf.getB_wUInt8_ne _ _ (by omega : (7 : Nat) ≠ j),
        Buf.getB_wUInt8_ne _ _ (by omega : (6 : Nat) ≠ j),
        Buf.getB_wUInt8_ne _ _ (by omega : (4 + 1 : Nat) ≠ j),
        Buf.getB_wUInt8_ne _ _ (by omega : (4 : Nat) ≠ j),
        Buf.getB_wUInt8_ne _ _ (by omega : (3 : Nat) ≠ j),
        Buf.getB_wUInt8_ne _ _ (by omega : (2 : Nat) ≠ j),
        Buf.getB_wUInt8_ne _ _ (by omega : (1 : Nat) ≠ j),
        Buf.getB_alloc]

/-- Witness for `C9_degenerate_series`: a constant 3-sample history. -/
theorem C9_degenerate_series_witness :
    ((stockOfLen 3).hourlyHistory ≠ [] →
      rangeOf (listMin (stockOfLen 3).hourlyHistory)
        (listMax (stockOfLen 3).hourlyHistory) = 1) ∧
    List.drop 10 (StockData.serializeHead (stockOfLen 3)) = List.replicate 22 0 :=
  C9_degenerate_series (stockOfLen 3) (by
    intro a ha b hb
    simp only [stockOfLen, List.mem_replicate] at ha hb
    rw [ha.2, hb.2])

theorem Buf.length_alloc (n : Nat) : (Buf.alloc n).length = n := Buf.len_alloc n

theorem Buf.length_wUInt8 (buf : Buf) (v off : Nat) :
    (buf.wUInt8 v off).length = buf.length := Buf.len_wUInt8 buf v off

theorem Buf.length_wUInt16BE (buf : Buf) (v off : Nat) :
    (buf.wUInt16BE v off).length = buf.length := Buf.len_wUInt16BE buf v off

theorem Buf.length_wInt16BE (buf : Buf) (v : Int) (off : Nat) :
    (buf.wInt16BE v off).length = buf.length := Buf.len_wInt16BE buf v off

theorem Buf.length_wStr (buf : Buf) (s : List Nat) (off m : Nat) :
    (buf.wStr s off m).length = buf.length := Buf.len_wStr buf s off m

theorem length_packValuesL (vals : List Nat) (buf : Buf) (base p : Nat) :
    (packValues buf base p vals).length = buf.length := len_packValues vals buf base p

/-- Reading a contiguous region of a buffer as a list. -/
theorem take_drop_eq_of_getB (P : Buf) (s : List Nat) (off n : Nat) (hsl : s.length = n)
    (hlen : off + n ≤ P.length) (h : ∀ j, j < n → P.getB (off + j) = s.getD j 0) :
    List.take n (List.drop off P) = s := by
  apply List.ext_getElem
  · simp only [List.length_take, List.length_drop, hsl]
    omega
  · intro j h1 h2
    have hj : j < n := by
      simp only [List.length_take, List.length_drop] at h1
      omega
    have hPj : off + j < P.length := by omega
    rw [List.getElem_take, List.getElem_drop]
    have h3 : P.getB (off + j) = s[j] := by
      rw [h j hj, List.getD_eq_getElem?_getD, List.getElem?_eq_getElem (by omega)]
      rfl
    rw [← h3, Buf.getB_eq_getElem _ _ hPj]

/-- **C8**: the weather packet stores the temperature as a signed big-endian
16-bit integer at payload bytes 1–2 (wire bytes 3–4) and the sunrise as a
5-byte ASCII "HH:MM" at payload bytes 9–13 (wire bytes 11–15), and the
firmware decoder reads exactly those offsets: decoding the encoded packet
recovers both fields. -/
theorem C8_weather_layout (w : WeatherRecord) (ht1 : -32768 ≤ w.temperature)
    (ht2 : w.temperature ≤ 32767) (hsr : w.sunrise.length = 5) :
    (decodeWeather (stripReportId ((WeatherData.serialize w).getD 0 []))).temperature
      = w.temperature ∧
    (decodeWeather (stripReportId ((WeatherData.serialize w).getD 0 []))).sunrise
      = w.sunrise := by
  simp only [WeatherData.serialize, List.getD_cons_zero, stripReportId, decodeWeather,
    Buf.wInt16BE, Buf.wUInt16BE]
  constructor
  · rw [Buf.getB_drop, Buf.getB_drop]
    rw [show (1 : Nat) + 2 = 3 from rfl, show (1 : Nat) + 3 = 3 + 1 from rfl]
    rw [Buf.getB_wStr_lt _ _ (by decide : 3 < 16), Buf.getB_wStr_lt _ _ (by decide : 3 < 11),
      Buf.getB_wUInt8_ne _ _ (by decide : (10 : Nat) ≠ 3),
      Buf.getB_wUInt8_ne _ _ (by decide : (8 + 1 : Nat) ≠ 3),
      Buf.getB_wUInt8_ne _ _ (by decide : (8 : Nat) ≠ 3),
      Buf.getB_wUInt8_ne _ _ (by decide : (7 : Nat) ≠ 3),
      Buf.getB_wUInt8_ne _ _ (by decide : (5 + 1 : Nat) ≠ 3),
      Buf.getB_wUInt8_ne _ _ (by decide : (5 : Nat) ≠ 3),
      Buf.getB_wUInt8_ne _ _ (by decide : (3 + 1 : Nat) ≠ 3)]
    rw [Buf.getB_wStr_lt _ _ (by decide : 3 + 1 < 16),
      Buf.getB_wStr_lt _ _ (by decide : 3 + 1 < 11),
      Buf.getB_wUInt8_ne _ _ (by decide : (10 : Nat) ≠ 3 + 1),
      Buf.getB_wUInt8_ne _ _ (by decide : (8 + 1 : Nat) ≠ 3 + 1),
      Buf.getB_wUInt8_ne _ _ (by decide : (8 : Nat) ≠ 3 + 1),
      Buf.getB_wUInt8_ne _ _ (by decide : (7 : Nat) ≠ 3 + 1),
      Buf.getB_wUInt8_ne _ _ (by decide : (5 + 1 : Nat) ≠ 3 + 1),
      Buf.getB_wUInt8_ne _ _ (by decide : (5 : Nat) ≠ 3 + 1)]
    rw [Buf.getB_wUInt8_eq _ _ (by
      show (3 : Nat) < Buf.len _
      show (3 : Nat) < List.length _
      simp [Buf.length_wUInt8, Buf.length_alloc])]
    rw [Buf.getB_wUInt8_eq _ _ (by
      show 3 + 1 < Buf.len _
      show 3 + 1 < List.length _
      simp [Buf.length_wUInt8, Buf.length_alloc])]
    exact int16_roundtrip w.temperature ht1 ht2
  · rw [List.drop_drop]
    rw [show (10 + 1 : Nat) = 11 from rfl]
    apply take_drop_eq_of_getB _ _ _ _ hsr
    · simp [Buf.length_wStr, Buf.length_wUInt8, Buf.length_alloc]
    · intro j hj
      rw [Buf.getB_wStr_lt _ _ (by omega : 11 + j < 16)]
      rw [Buf.getB_wStr_in _ _ (by omega) (by omega) (by
        show 11 + min 5 w.sunrise.length ≤ List.length _
        simp [Buf.length_wUInt8, Buf.length_alloc, hsr])]

/-- Witness for `C8_weather_layout`: −5 °C and sunrise "07:30". -/
theorem C8_weather_layout_witness :
    (decodeWeather (stripReportId ((WeatherData.serialize weatherMinus5).getD 0
      []))).temperature = weatherMinus5.temperature ∧
    (decodeWeather (stripReportId ((WeatherData.serialize weatherMinus5).getD 0
      []))).sunrise = weatherMinus5.sunrise :=
  C8_weather_layout weatherMinus5 (by decide) (by decide) (by decide)

theorem exceptOkBind {ε α β : Type} (a : α) (f : α → Except ε β) :
    (Except.ok a >>= f) = f a := rfl

theorem exceptPureEqOk {ε α : Type} (a : α) : (pure a : Except ε α) = Except.ok a := rfl

theorem MetroData.serializeLine_eq (l : MetroData.Line) :
    MetroData.serializeLine l = Except.ok (MetroData.serializeLinePure l) := by
  unfold MetroData.serializeLine MetroData.serializeLinePure
  by_cases h1 : 29 < l.message.length <;> by_cases h2 : 29 * 2 < l.message.length <;>
    simp [h1, h2, Buf.wUInt8Checked, DATA_TYPE.METRO_MESSAGE_1, DATA_TYPE.METRO_MESSAGE_2,
      exceptOkBind, exceptPureEqOk]

theorem MetroData.serialize_eq (lines : List MetroData.Line) :
    MetroData.serialize lines
      = Except.ok ((lines.filter (·.incident)).flatMap MetroData.serializeLinePure) := by
  unfold MetroData.serialize
  generalize lines.filter (·.incident) = ls
  suffices h : ∀ acc : List Buf, (ls.foldlM (fun acc l => do
      let ps ← MetroData.serializeLine l
      pure (acc ++ ps)) acc)
        = Except.ok (acc ++ ls.flatMap MetroData.serializeLinePure) by
    simpa using h []
  induction ls with
  | nil =>
    intro acc
    simp [exceptPureEqOk]
  | cons x xs ih =>
    intro acc
    rw [List.foldlM_cons, MetroData.serializeLine_eq x, exceptOkBind, exceptPureEqOk,
      exceptOkBind, ih (acc ++ MetroData.serializeLinePure x), List.flatMap_cons,
      List.append_assoc]

/-- **C10 counterexample**: a line-9 incident with a 35-character message.
`MetroData.serialize` does *not* throw: it returns two packets (head plus one
continuation), the continuation carrying type tag `0` at wire byte 1, because
`writeUint8(DATA_TYPE.METRO_MESSAGE_1, 1)` receives `undefined`, which Node
coerces to `NaN`, passes through the range check, and stores as `0`. -/
theorem C10_counterexample :
    (MetroData.serialize [line35]).isOk = true ∧
    (MetroData.okPackets (MetroData.serialize [line35])).length = 2 ∧
    ((MetroData.okPackets (MetroData.serialize [line35])).getD 1 []).getB 1 = 0 := by
  refine ⟨?_, ?_, ?_⟩ <;> decide

/-- **C10 amended**: for a transit line with an incident message longer than
29 characters, `MetroData.serialize` does not throw — the undefined
continuation tags are coerced to byte 0 — so the message yields a head packet
plus one (or, past 58 characters, two) continuation packets whose type tag
byte is 0 (`INVALID`, which the firmware decoder ignores). -/
theorem C10_undefined_tag_writes_zero :
    (∀ lines : List MetroData.Line, (MetroData.serialize lines).isOk = true) ∧
    (∀ l : MetroData.Line, 29 < l.message.length →
      (MetroData.okPackets (MetroData.serializeLine l)).length
        = (if 29 * 2 < l.message.length then 3 else 2) ∧
      ((MetroData.okPackets (MetroData.serializeLine l)).getD 1 []).getB 1 = 0) := by
  constructor
  · intro lines
    rw [MetroData.serialize_eq]
    rfl
  · intro l h1
    rw [MetroData.serializeLine_eq]
    constructor
    · show (MetroData.serializeLinePure l).length = _
      unfold MetroData.serializeLinePure
      rw [if_pos h1]
      by_cases h2 : 29 * 2 < l.message.length
      · rw [if_pos h2, if_pos h2]; rfl
      · rw [if_neg h2, if_neg h2]; rfl
    · show ((MetroData.serializeLinePure l).getD 1 []).getB 1 = 0
      unfold MetroData.serializeLinePure
      rw [if_pos h1]
      rw [show ∀ c2 : List Buf, ((((Buf.alloc 32).wUInt8 DATA_TYPE.METRO 1).wStr [l.name] 2
          1).wStr l.message 3 29
          :: ([(((Buf.alloc 32).wUInt8 0 1).wStr [l.name] 2 1).wStr (l.message.drop 29) 3 29]
            ++ c2)).getD 1 []
        = (((Buf.alloc 32).wUInt8 0 1).wStr [l.name] 2 1).wStr (l.message.drop 29) 3 29
        from fun c2 => rfl]
      rw [Buf.getB_wStr_lt _ _ (by decide : 1 < 3), Buf.getB_wStr_lt _ _ (by decide : 1 < 2)]
      exact Buf.getB_wUInt8_eq _ _ (by decide)

/-- Witness for `C10_undefined_tag_writes_zero` at the 35-character message. -/
theorem C10_undefined_tag_writes_zero_witness :
    (MetroData.serialize [line35]).isOk = true ∧
    ((MetroData.okPackets (MetroData.serializeLine line35)).length
        = (if 29 * 2 < line35.message.length then 3 else 2) ∧
      ((MetroData.okPackets (MetroData.serializeLine line35)).getD 1 []).getB 1 = 0) :=
  ⟨C10_undefined_tag_writes_zero.1 [line35],
    C10_undefined_tag_writes_zero.2 line35 (by decide)⟩

theorem MetroV1.getB3_contPacket (line : Nat) (msg : List Nat) (off : Nat) :
    (MetroV1.contPacket line msg off).getB 3 = off := by
  unfold MetroV1.contPacket
  rw [Buf.getB_wStr_lt _ _ (by decide : 3 < 4)]
  exact Buf.getB_wUInt8_eq _ _ (by
    show (3 : Nat) < List.length _
    simp [Buf.length_wStr, Buf.length_wUInt8, Buf.length_alloc])

theorem MetroV1.contPacketsAux_offsets (line : Nat) (msg : List Nat) :
    ∀ (fuel off : Nat), (msg.length - off + 27) / 28 ≤ fuel →
    (MetroV1.contPacketsAux line msg off fuel).map (fun b => b.getB 3)
      = (List.range ((msg.length - off + 27) / 28)).map (fun k => off + 28 * k) := by
  intro fuel
  induction fuel with
  | zero =>
    intro off hfuel
    rw [MetroV1.contPacketsAux]
    rw [show (msg.length - off + 27) / 28 = 0 by omega]
    rfl
  | succ fuel ih =>
    intro off hfuel
    rw [MetroV1.contPacketsAux]
    by_cases hlt : off < msg.length
    · rw [if_pos hlt]
      have hc : (msg.length - off + 27) / 28 = (msg.length - (off + 28) + 27) / 28 + 1 := by
        omega
      rw [List.map_cons, MetroV1.getB3_contPacket,
        ih (off + 28) (by omega), hc, List.range_succ_eq_map, List.map_cons,
        List.map_map]
      rw [show off + 28 * 0 = off by omega]
      congr 1
      apply List.map_congr_left
      intro k _
      show off + 28 + 28 * k = off + 28 * (k + 1)
      omega
    · rw [if_neg hlt]
      rw [show (msg.length - off + 27) / 28 = 0 by omega]
      rfl

/-- **C5 counterexample**: a 70-character incident message under the
offset-carrying encoder variant yields a head packet and two continuation
packets whose explicit offset bytes are 29 and 57 — not 28 and 56: the head
budget is 29 bytes (bytes 3–31), continuations carry 28. -/
theorem C5_counterexample :
    (MetroV1.serializeLine line70V1).length = 3 ∧
    MetroV1.contOffsets 57 (msgOf 70) = [29, 57] ∧
    MetroV1.contOffsets 57 (msgOf 70) ≠ [28, 56] := by
  refine ⟨?_, ?_, ?_⟩ <;> decide

/-- **C5 amended**: each continuation packet of the offset-carrying variant
carries an explicit offset byte equal to the cumulative byte count of all
prior segments — a 29-byte head chunk plus 28 bytes per prior continuation —
so the `k`-th continuation carries offset `29 + 28·k` and the offsets are
strictly increasing; a 70-character message yields 1 head + 2 continuation
packets with offsets 29 and 57. -/
theorem C5_offsets_monotone (line : Nat) (msg : List Nat) (h255 : msg.length ≤ 255) :
    MetroV1.contOffsets line msg
      = (List.range (MetroV1.numCont msg.length)).map (fun k => 29 + 28 * k) ∧
    List.Pairwise (· < ·) (MetroV1.contOffsets line msg) := by
  have heq : MetroV1.contOffsets line msg
      = (List.range (MetroV1.numCont msg.length)).map (fun k => 29 + 28 * k) := by
    unfold MetroV1.contOffsets MetroV1.contPackets MetroV1.numCont
    exact MetroV1.contPacketsAux_offsets line msg msg.length 29 (by omega)
  refine ⟨heq, ?_⟩
  rw [heq]
  refine List.Pairwise.map _ ?_ (List.pairwise_lt_range _)
  intro a b hab
  omega

/-- Witness for `C5_offsets_monotone` at the 70-character message. -/
theorem C5_offsets_monotone_witness :
    MetroV1.contOffsets 57 (msgOf 70)
      = (List.range (MetroV1.numCont (msgOf 70).length)).map (fun k => 29 + 28 * k) ∧
    List.Pairwise (· < ·) (MetroV1.contOffsets 57 (msgOf 70)) := by
  have h := C5_offsets_monotone 57 (msgOf 70) (by decide)
  exact ⟨by rw [h.1, show (msgOf 70).length = 70 by decide], h.2⟩

theorem length_serializeHead (s : StockRecord) : (StockData.serializeHead s).length = 32 := by
  simp only [StockData.serializeHead]
  rw [length_packValuesL]
  simp [Buf.length_wUInt8, Buf.length_wInt16BE, Buf.length_wUInt16BE, Buf.length_alloc]

theorem length_serializeCont (s : StockRecord) : (StockData.serializeCont s).length = 32 := by
  simp only [StockData.serializeCont]
  rw [length_packValuesL]
  simp [Buf.length_wUInt8, Buf.length_alloc]

theorem length_serializeLinePure (l : MetroData.Line) :
    ∀ b ∈ MetroData.serializeLinePure l, b.length = 32 := by
  intro b hb
  simp only [MetroData.serializeLinePure] at hb
  rcases List.mem_cons.mp hb with hb | hb
  · subst hb
    simp [Buf.length_wStr, Buf.length_wUInt8, Buf.length_alloc]
  · rcases List.mem_append.mp hb with hb | hb
    · by_cases h1 : 29 < l.message.length
      · rw [if_pos h1] at hb
        have := List.mem_singleton.mp hb
        subst this
        simp [Buf.length_wStr, Buf.length_wUInt8, Buf.length_alloc]
      · rw [if_neg h1] at hb
        simp at hb
    · by_cases h2 : 29 * 2 < l.message.length
      · rw [if_pos h2] at hb
        have := List.mem_singleton.mp hb
        subst this
        simp [Buf.length_wStr, Buf.length_wUInt8, Buf.length_alloc]
      · rw [if_neg h2] at hb
        simp at hb

/-- **C6**: every buffer produced by any of the three domain serializers is
exactly 32 bytes long.  The hypotheses delimit the domain of valid records on
which the total model agrees with Node's throwing `write*` validators (the
history-length byte must fit `writeUInt8`, the weather scalars their
fields). -/
theorem C6_packet_size (stocks : List StockRecord) (lines : List MetroData.Line)
    (w : WeatherRecord)
    (hs : ∀ s ∈ stocks, s.hourlyHistory.length ≤ 255)
    (hw : -32768 ≤ w.temperature ∧ w.temperature ≤ 32767 ∧ -32768 ≤ w.feelsLike ∧
      w.feelsLike ≤ 32767 ∧ w.humidity ≤ 255 ∧ w.pressure ≤ 65535 ∧ w.windSpeed ≤ 255 ∧
      w.condition ≤ 255) :
    ((StockData.serialize stocks ++ MetroData.okPackets (MetroData.serialize lines)
      ++ WeatherData.serialize w).all fun b => b.length == 32) = true := by
  rw [List.all_eq_true]
  intro b hb
  simp only [beq_iff_eq]
  rcases List.mem_append.mp hb with hb | hb
  · rcases List.mem_append.mp hb with hb | hb
    · rcases List.mem_flatMap.mp hb with ⟨s, hsmem, hbs⟩
      rcases List.mem_cons.mp hbs with hbs | hbs
      · subst hbs
        exact length_serializeHead s
      · by_cases hc : 35 < s.hourlyHistory.length
        · rw [if_pos hc] at hbs
          have := List.mem_singleton.mp hbs
          subst this
          exact length_serializeCont s
        · rw [if_neg hc] at hbs
          simp at hbs
    · rw [MetroData.serialize_eq] at hb
      simp only [MetroData.okPackets] at hb
      rcases List.mem_flatMap.mp hb with ⟨l, hlmem, hbl⟩
      exact length_serializeLinePure l b hbl
  · simp only [WeatherData.serialize] at hb
    have := List.mem_singleton.mp hb
    subst this
    simp [Buf.length_wStr, Buf.length_wUInt8, Buf.length_wInt16BE, Buf.length_wUInt16BE,
      Buf.length_alloc]

/-- Witness for `C6_packet_size` at the boundary cases of the claim:
history lengths 0, 35, 36, 80 and message lengths 0, 1, 29, 57, 200. -/
theorem C6_packet_size_witness :
    ((StockData.serialize [stockOfLen 0, stockOfLen 35, stockOfLen 36, stockOfLen 80]
      ++ MetroData.okPackets (MetroData.serialize
        [lineOfLen 0, lineOfLen 1, lineOfLen 29, lineOfLen 57, lineOfLen 200])
      ++ WeatherData.serialize weatherMinus5).all fun b => b.length == 32) = true :=
  C6_packet_size _ _ _ (by decide) (by decide)
